import Mathlib

/-!
Verification development for the netmap repository.

The embedding below models the rendering core of `src/netmap.go` (gradient
lookup `getColor`, address conversion `IPv4ToInt`, geometry `getLength`, and
the compositor `renderImage`) together with the host filter of the nmap XML
parser (`parseXml` in the second source file).  The Hilbert-curve mapper comes
from the external `github.com/google/hilbert` package, whose source is not
part of the repository; it is modelled from the specification (see the
definitions marked "Modelled from the spec").

Machine-integer conventions: Go `uint8`/`uint16`/`uint32` values are carried
as `ℕ` and wrapped with `% 256` / `% 65536` / `% 2 ^ 32` exactly where the Go
program performs a conversion or where unsigned arithmetic can wrap.  Go `int`
is carried as `ℤ`; its 64-bit overflow is not modelled (no value in scope
approaches `2 ^ 63`).  Go `float64` expressions are modelled by exact rational
arithmetic on an explicit numerator/denominator pair (`Frac`); every concrete
evaluation performed in the theorems below is robust to the difference between
exact rationals and correctly rounded IEEE doubles, as argued at the use
sites.  A Go runtime panic (integer division by zero, indexing a nil slice)
is modelled by propagating `Option.none`.
-/

namespace Netmap

/-! ## Colors and the gradient (src/netmap.go lines 48-91) -/

/-- RGBA color; each channel is a Go `uint8`, kept as a natural number that is
always reduced mod 256 when produced. -/
structure RGBA where
  R : ℕ
  G : ℕ
  B : ℕ
  A : ℕ
deriving DecidableEq

/-- Length of the `colors` gradient table (`len(colors)` in Go). -/
def lenColors : ℕ := 7

/-- The gradient table `colors` of src/netmap.go lines 49-57.  It is a Go
`map[int]color.RGBA`; looking up a key that is absent yields the zero value,
modelled by the catch-all arm. -/
def colors (i : ℕ) : RGBA :=
  match i with
  | 0 => ⟨0, 0, 0, 255⟩       -- black
  | 1 => ⟨0, 0, 255, 255⟩     -- blue
  | 2 => ⟨0, 255, 255, 255⟩   -- cyan
  | 3 => ⟨0, 255, 0, 255⟩     -- green
  | 4 => ⟨255, 255, 0, 255⟩   -- yellow
  | 5 => ⟨255, 0, 0, 255⟩     -- red
  | 6 => ⟨255, 255, 255, 255⟩ -- white
  | _ => ⟨0, 0, 0, 0⟩

/-- Exact rational number as an unnormalized numerator/denominator pair.
Models the real-number value of the Go `float64` expressions in `getColor`
and of the specification's interpolation formula.  The denominator is
positive at every use site in this file. -/
structure Frac where
  num : ℤ
  den : ℤ
deriving DecidableEq

/-- Embed a natural number (a Go integer value converted to `float64`). -/
def Frac.ofN (n : ℕ) : Frac := ⟨n, 1⟩

/-- Addition of exact rationals. -/
def Frac.add (x y : Frac) : Frac := ⟨x.num * y.den + y.num * x.den, x.den * y.den⟩

/-- Subtraction of exact rationals. -/
def Frac.sub (x y : Frac) : Frac := ⟨x.num * y.den - y.num * x.den, x.den * y.den⟩

/-- Multiplication of exact rationals. -/
def Frac.mul (x y : Frac) : Frac := ⟨x.num * y.num, x.den * y.den⟩

/-- Division of exact rationals; only used with a divisor whose value is
positive, keeping the denominator positive. -/
def Frac.div (x y : Frac) : Frac := ⟨x.num * y.den, x.den * y.num⟩

/-- Truncation toward zero, the defined part of Go's float-to-integer
conversion (the denominator is positive at every use). -/
def Frac.trunc (x : Frac) : ℤ := Int.tdiv x.num x.den

/-- Go conversion `uint8(v)` of a `float64` `v`: the fraction is discarded
(truncation toward zero); for results in `[0, 256)` this is exact Go
behavior.  A result that is negative or `≥ 256` after truncation is
implementation-defined in Go; it is modelled here as clamp-to-zero / wrap,
and no theorem in this file depends on such a case. -/
def f64ToUint8 (v : Frac) : ℕ := v.trunc.toNat % 256

/-- Go `uint8` subtraction `a - b` with wraparound (`a`, `b` < 256). -/
def u8sub (a b : ℕ) : ℕ := (a + 256 - b) % 256

/-- One output channel of `getColor`:
`uint8(float64(prevC.ch-currC.ch)*fract + float64(currC.ch))`
(src/netmap.go lines 83-86).  The `uint8` subtraction `prevC.ch-currC.ch`
wraps mod 256 before the conversion to `float64`. -/
def gradChannel (p c : ℕ) (fract : Frac) : ℕ :=
  f64ToUint8 (Frac.add (Frac.mul (Frac.ofN (u8sub p c)) fract) (Frac.ofN c))

/-- Body of the `lvl < currV` branch of the loop in `getColor`
(src/netmap.go lines 75-88).
* `prevC := colors[int(math.Max(0.0, float64(i-1)))]`: for `i ≥ 1` this is
  `colors (i-1)`, for `i = 0` it is `colors 0`; ℕ subtraction gives exactly
  that.
* `currV := uint16(i * math.MaxUint16 / len(colors))`: computed in `int`,
  always `< 2 ^ 16`, so the `uint16` conversion is the identity.
* `diff := uint16(math.Max(0.0, float64(i-1)))*math.MaxUint16/uint16(len(colors)) - currV`
  is `uint16` arithmetic: the product wraps mod `2 ^ 16` and the subtraction
  wraps mod `2 ^ 16`.
* `fract := 0.0; if diff != 0 { fract = float64(lvl) - float64(currV)/float64(diff) }`:
  note the precedence — the division is performed first. -/
def getColorInterp (lvl i : ℕ) : RGBA :=
  let prevC := colors (i - 1)
  let currC := colors i
  let currV := i * 65535 / lenColors
  let diff := ((i - 1) * 65535 % 65536 / lenColors + 65536 - currV) % 65536
  let fract := if diff = 0 then Frac.ofN 0
    else Frac.sub (Frac.ofN lvl) (Frac.div (Frac.ofN currV) (Frac.ofN diff))
  ⟨gradChannel prevC.R currC.R fract, gradChannel prevC.G currC.G fract,
    gradChannel prevC.B currC.B fract, gradChannel prevC.A currC.A fract⟩

/-- The loop `for i := 0; i < len(colors); i++` of `getColor`
(src/netmap.go lines 72-89), written with the remaining iteration count as
fuel; begun with `i = 0` and fuel `lenColors`.  Falling out of the loop
returns `colors[len(colors)-1]` (line 90). -/
def getColorGo (lvl : ℕ) : ℕ → ℕ → RGBA
  | _, 0 => colors (lenColors - 1)
  | i, fuel + 1 =>
    if lvl < i * 65535 / lenColors then getColorInterp lvl i
    else getColorGo lvl (i + 1) fuel

/-- `getColor` of src/netmap.go lines 62-91.  The argument is a Go `uint16`
(so `lvl ≤ 0` means `lvl = 0`, and `lvl >= math.MaxUint16` means
`lvl = 65535`); the definition accepts any `ℕ` with the same comparisons the
Go code performs. -/
def getColor (lvl : ℕ) : RGBA :=
  if lvl ≤ 0 then colors 0
  else if 65535 ≤ lvl then colors (lenColors - 1)
  else getColorGo lvl 0 lenColors

/-- Modelled from the spec (§4.3 GradientRenderer): the piecewise-linear
interpolation the specification prescribes, for comparison with `getColor`.
Stop `i` is centered at `i * MAXVALUE / N` with `MAXVALUE = 65535`, `N = 7`;
`round` is round-to-nearest as floor of `v + 1/2`. -/
def specRound (v : Frac) : ℤ := Int.fdiv (2 * v.num + v.den) (2 * v.den)

/-- Modelled from the spec (§4.3): center of gradient stop `i`, the exact
rational `i * 65535 / 7`. -/
def specCenter (i : ℕ) : Frac := ⟨(i : ℤ) * 65535, 7⟩

/-- Modelled from the spec (§4.3): one channel interpolated linearly from the
stop `i-1` channel `p` to the stop `i` channel `c` and rounded to the nearest
8-bit value. -/
def specChannel (p c : ℕ) (fract : Frac) : ℕ :=
  (specRound (Frac.add (Frac.ofN p) (Frac.mul (Frac.sub (Frac.ofN c) (Frac.ofN p)) fract))).toNat

/-- Modelled from the spec (§4.3): find the first stop `i` whose center
exceeds the level (`lvl < i * 65535 / 7`, compared exactly by
cross-multiplication) and interpolate between stops `i-1` and `i` by the
fractional position of the level between the two centers. -/
def specFind (lvl : ℕ) : ℕ → ℕ → RGBA
  | _, 0 => colors (lenColors - 1)
  | i, fuel + 1 =>
    if (lvl : ℤ) * 7 < (i : ℤ) * 65535 then
      let fract := Frac.div (Frac.sub (Frac.ofN lvl) (specCenter (i - 1)))
        (Frac.sub (specCenter i) (specCenter (i - 1)))
      ⟨specChannel (colors (i - 1)).R (colors i).R fract,
        specChannel (colors (i - 1)).G (colors i).G fract,
        specChannel (colors (i - 1)).B (colors i).B fract,
        specChannel (colors (i - 1)).A (colors i).A fract⟩
    else specFind lvl (i + 1) fuel

/-- Modelled from the spec (§4.3): the color the specification's
GradientRenderer assigns to a normalized level, with the boundary policy
`level ≤ 0 ↦ first stop`, `level ≥ MAXVALUE ↦ last stop`. -/
def gradientSpecColor (lvl : ℕ) : RGBA :=
  if lvl = 0 then colors 0
  else if 65535 ≤ lvl then colors (lenColors - 1)
  else specFind lvl 1 (lenColors - 1)

/-! ## IP addresses and hosts (src/netmap.go lines 93-97, parser source) -/

/-- Go `net.IP`: a byte slice that may be nil.  Bytes are `uint8`, reduced
mod 256 when read. -/
def GoIP : Type := Option (List ℕ)

/-- Go `net.IP.To4` (standard library): a 4-byte slice is returned as is; a
16-byte slice with the IPv4-mapped prefix `0..0 ff ff` is shortened to its
last 4 bytes; anything else (including nil) yields nil. -/
def To4 (ip : GoIP) : Option (List ℕ) :=
  match ip with
  | none => none
  | some bs =>
    if bs.length = 4 then some bs
    else if bs.length = 16 ∧ bs.take 12 = [0, 0, 0, 0, 0, 0, 0, 0, 0, 0, 255, 255] then
      some (bs.drop 12)
    else none

/-- `IPv4ToInt` of src/netmap.go lines 94-97:
`ip = ip.To4(); return uint32(ip[0])<<24 + uint32(ip[1])<<16 + uint32(ip[2])<<8 + uint32(ip[3])`.
Indexing the nil slice returned by `To4` for a non-IPv4 address is a Go
runtime panic, modelled as `none`.  The shifted sum of four bytes is below
`2 ^ 32`, so the `uint32` arithmetic never wraps. -/
def IPv4ToInt (ip : GoIP) : Option ℕ :=
  match To4 ip with
  | some (a :: b :: c :: d :: _) =>
    some ((a % 256) * 2 ^ 24 + (b % 256) * 2 ^ 16 + (c % 256) * 2 ^ 8 + d % 256)
  | _ => none

/-- Go `net.IP.String` (standard library), to the extent the parser uses it:
a nil or empty IP stringifies to `"<nil>"`; a 4-byte IP to its dotted-quad
form; other lengths to a nonempty textual form (IPv6 or `"?"`-prefixed hex),
abstracted here as a `"?"`-prefixed placeholder — only its nonemptiness
matters to the claims. -/
def ipString (ip : GoIP) : String :=
  match ip with
  | none => "<nil>"
  | some [] => "<nil>"
  | some [a, b, c, d] =>
    toString a ++ "." ++ toString b ++ "." ++ toString c ++ "." ++ toString d
  | some bs => "?" ++ toString bs.length

/-- `Host` of the parser source (lines 103-107): IP, RTT in microseconds
(Go `int`), and the open-port list. -/
structure Host where
  IP : GoIP
  RTT : ℤ
  OpenPorts : List String

/-- The record filter of `parseXml` (parser source line 94):
`if h.IP.String() != "" { hosts = append(hosts, h) }`. -/
def keepHost (h : Host) : Bool := ipString h.IP != ""

/-- Go `type ScanType string`. -/
abbrev ScanType : Type := String

/-- `ScanHostUp` of the parser source. -/
def scanHostUp : ScanType := "HOSTUP"

/-- `ScanDefaultPorts` of the parser source. -/
def scanDefaultPorts : ScanType := "DEFAULTPORTS"

/-- `ScanAllPorts` of the parser source. -/
def scanAllPorts : ScanType := "ALLPORTS"

/-- `ScanWebPorts` of the parser source. -/
def scanWebPorts : ScanType := "WEBPORTS"

/-! ## Subnet geometry (src/netmap.go lines 99-110) -/

/-- Go `*net.IPNet`: the base IP and the mask, the latter represented by the
result of `Mask.Size()` — the pair (leading-one count, total bits); only
these two projections and the IP bytes are consumed by the program. -/
structure IPNet where
  ip : GoIP
  maskOnes : ℕ
  maskBits : ℕ

/-- Error cases of `getLength` (src/netmap.go lines 102-108). -/
inductive GetLengthErr where
  | notIPv4   -- "the given network is not an IPv4 network"
  | notSquare -- "please choose a network that allows a square image"
deriving DecidableEq

instance {e a : Type} [DecidableEq e] [DecidableEq a] : DecidableEq (Except e a) := fun x y =>
  match x, y with
  | .ok v, .ok w =>
    if h : v = w then isTrue (h ▸ rfl) else isFalse fun hh => h (Except.ok.inj hh)
  | .ok _, .error _ => isFalse fun hh => Except.noConfusion hh
  | .error _, .ok _ => isFalse fun hh => Except.noConfusion hh
  | .error v, .error w =>
    if h : v = w then isTrue (h ▸ rfl) else isFalse fun hh => h (Except.error.inj hh)

/-- Newton iteration for the integer square root, with explicit fuel so that
the kernel can evaluate it. -/
def sqrtIter : ℕ → ℕ → ℕ → ℕ
  | 0, _, guess => guess
  | fuel + 1, n, guess =>
    let next := (guess + n / guess) / 2
    if next < guess then sqrtIter fuel n next else guess

/-- Integer square root (floor), by Newton iteration from `n / 2`. -/
def intSqrt (n : ℕ) : ℕ := if n ≤ 1 then n else sqrtIter n n (n / 2)

/-- `getLength` of src/netmap.go lines 100-110 as a function of
`ones, bits := n.Mask.Size()`, the only data it reads.  The source computes
`l := math.Sqrt(math.Pow(2, float64(bits-ones)))` in `float64` and rejects
the network when `l != math.Ceil(l)`.  For the reachable exponents
`0 ≤ bits-ones ≤ 32`, `math.Sqrt(2^h)` is an integer `float64` exactly when
`h` is even (odd `h` gives a correctly rounded irrational, never equal to
its ceiling), and in the even case it equals the exact integer square root;
the float test is therefore modelled by the exact integer perfect-square
test. -/
def getLengthCore (ones bits : ℕ) : Except GetLengthErr ℕ :=
  if bits ≠ 32 then .error .notIPv4
  else
    let l := intSqrt (2 ^ (bits - ones))
    if l * l = 2 ^ (bits - ones) then .ok l else .error .notSquare

/-- `getLength` applied to a network value. -/
def getLength (n : IPNet) : Except GetLengthErr ℕ := getLengthCore n.maskOnes n.maskBits

/-- The value `renderImage` actually uses: `l, _ := getLength(n)`
(src/netmap.go line 114) discards the error, and both error paths of
`getLength` return the value 0. -/
def getLengthVal (n : IPNet) : ℕ :=
  match getLength n with
  | .ok l => l
  | .error _ => 0

/-! ## Hilbert curve mapper

Modelled from the spec (§4.2 CurveMapper): the mapper is the external
`github.com/google/hilbert` package, whose source is not part of this
repository.  The spec prescribes a Hilbert space-filling curve of order
`log2(side)` built by `hilbert.New` (failing for a side that is not a
positive power of two) with `Map` translating a one-dimensional value into
discrete X and Y coordinates and failing for values outside `[0, side²)`.
The construction below is the standard iterative Hilbert d2xy algorithm:
each loop step `i = 1, 2, 4, …, side/2` consumes the two low bits of the
remaining index, rotates and flips the coordinates accumulated so far inside
the sub-square of side `i`, and offsets them into the selected quadrant. -/

/-- One Hilbert rotation/flip step: with `ry` false, optionally (when `rx`)
reflect both coordinates in the sub-square of side `n`, then swap them. -/
def hilbertRotate (n x y : ℕ) (rx ry : Bool) : ℕ × ℕ :=
  if ry then (x, y)
  else if rx then (n - 1 - y, n - 1 - x)
  else (y, x)

/-- One Hilbert loop step for sub-square side `n` and quadrant bits
`q = t mod 4` of the remaining index: `rx` is bit 1 of `q`, `ry` is bit 0
flipped when `rx` is set; rotate, then offset by `n` into the quadrant. -/
def hilbertQuad (n q : ℕ) (p : ℕ × ℕ) : ℕ × ℕ :=
  let rx := q / 2 == 1
  let ry := if rx then !(q % 2 == 1) else q % 2 == 1
  let r := hilbertRotate n p.1 p.2 rx ry
  (if rx then r.1 + n else r.1, if ry then r.2 + n else r.2)

/-- The Hilbert mapping of order `k` (side `2 ^ k`): `k` loop steps, the
step for sub-square side `2 ^ j` consuming bits `2j, 2j+1` of the index. -/
def hilbertIter : ℕ → ℕ → ℕ × ℕ
  | 0, _ => (0, 0)
  | k + 1, t => hilbertQuad (2 ^ k) (t / 4 ^ k % 4) (hilbertIter k t)

/-- Errors of `hilbert.New`: the side must be positive and a power of two. -/
inductive HilbertErr where
  | notPositive
  | notPowerOfTwo
deriving DecidableEq

/-- Error of `Hilbert.Map` for an index outside `[0, side²)`. -/
inductive MapErr where
  | outOfRange
deriving DecidableEq

/-- The mapper state: the canvas side `N`. -/
structure Hilbert where
  N : ℕ

/-- `hilbert.New(n)`: rejects `n <= 0` (here `n = 0`, the argument being a
Go non-negative length) and any `n` with `n & (n-1) != 0` (not a power of
two). -/
def hilbertNew (n : ℕ) : Except HilbertErr Hilbert :=
  if n = 0 then .error .notPositive
  else if n &&& (n - 1) ≠ 0 then .error .notPowerOfTwo
  else .ok ⟨n⟩

/-- Number of doubling steps of the loop `for i := 1; i < N; i *= 2`, with
explicit fuel so that the kernel can evaluate it (`fuel = N` suffices). -/
def log2Fuel : ℕ → ℕ → ℕ
  | 0, _ => 0
  | fuel + 1, n => if 2 ≤ n then log2Fuel fuel (n / 2) + 1 else 0

/-- Floor base-2 logarithm; for the power-of-two sides admitted by
`hilbertNew` this is exactly the iteration count of the `Map` loop. -/
def goLog2 (n : ℕ) : ℕ := log2Fuel n n

/-- `Hilbert.Map(t)`: fails for `t` outside `[0, N²)` (the index is passed
as a non-negative `uint32` difference by the caller, so only the upper bound
is live), otherwise runs the iterative Hilbert construction. -/
def Hilbert.Map (s : Hilbert) (t : ℕ) : Except MapErr (ℕ × ℕ) :=
  if s.N * s.N ≤ t then .error .outOfRange
  else .ok (hilbertIter (goLog2 s.N) t)

/-! ## Canvas and compositor (src/netmap.go lines 112-161) -/

/-- The `image.RGBA` canvas: the square side and the pixel contents.  Pixels
outside the bounds are never drawn and are carried as the zero value. -/
structure Canvas where
  side : ℕ
  pix : ℕ × ℕ → RGBA

/-- `canvas.SetRGBA(x, y, c)`: the standard library ignores writes outside
the bounds rectangle. -/
def Canvas.set (c : Canvas) (x y : ℕ) (col : RGBA) : Canvas :=
  if x < c.side ∧ y < c.side then
    ⟨c.side, fun p => if p = (x, y) then col else c.pix p⟩
  else c

/-- Error component of `renderImage`'s failure return.  The source's only
error return wraps the `hilbert.New` error (line 125); `invalidSubnet`
represents the spec's `InvalidSubnet` case of the render contract and is
never produced by `renderImage`, whose call to `getLength` discards the
error (line 114). -/
inductive RenderErr where
  | invalidSubnet (e : GetLengthErr)
  | hilbertFail (e : HilbertErr)
deriving DecidableEq

/-- Outcome of `renderImage`: a normal return of the canvas, an error
return, or a runtime panic (division by zero at lines 154/156 when the
maximum metric is 0, or the nil-slice index inside `IPv4ToInt`). -/
inductive RenderOut where
  | ok (c : Canvas)
  | fail (e : RenderErr)
  | panics

/-- The offset computation `t := IPv4ToInt(h.IP) - startIP` of
src/netmap.go line 146: `uint32` subtraction, wrapping mod `2 ^ 32` (a host
below the base address wraps to a huge positive offset, so a negative offset
never reaches the mapper). -/
def wrap32 (a b : ℕ) : ℕ := (a + 2 ^ 32 - b) % 2 ^ 32

/-- The normalization `uint16(metric * int(math.MaxUint16) / max)` of
src/netmap.go lines 154/156, defined only when `max ≠ 0` (the caller models
`max = 0` as the division-by-zero panic).  Go `int` division truncates
toward zero and the `uint16` conversion wraps mod `2 ^ 16`. -/
def levelOf (metric mx : ℤ) : ℕ := ((Int.tdiv (metric * 65535) mx).emod 65536).toNat

/-- The maximum-metric loops of src/netmap.go lines 129-143: `max := 0`,
then for the host-up scan take the running maximum of `h.RTT`, otherwise of
`len(h.OpenPorts)`. -/
def maxMetric (st : ScanType) (hosts : List Host) : ℤ :=
  if st = scanHostUp then
    hosts.foldl (fun m h => if h.RTT > m then h.RTT else m) 0
  else
    hosts.foldl (fun m h => if (h.OpenPorts.length : ℤ) > m then (h.OpenPorts.length : ℤ) else m) 0

/-- The painting loop of src/netmap.go lines 145-159.  Per host:
* `t := IPv4ToInt(h.IP) - startIP` is `uint32` arithmetic, wrapping mod
  `2 ^ 32` (a host below the base address wraps to a huge offset); a nil/
  non-IPv4 `h.IP` panics inside `IPv4ToInt` (modelled `none`).
* `x, y, err := hil.Map(int(t)); if err != nil { continue }` skips the host.
* the level computation divides by `max` in both switch branches, a runtime
  panic when `max = 0` (modelled `none`); the branch only selects the metric.
* `canvas.SetRGBA(x, y, getColor(lvl))` paints the pixel. -/
def paintHosts (hil : Hilbert) (startIP : ℕ) (st : ScanType) (mx : ℤ)
    (canvas : Canvas) : List Host → Option Canvas
  | [] => some canvas
  | h :: rest =>
    match IPv4ToInt h.IP with
    | none => none
    | some ipv =>
      match hil.Map (wrap32 ipv startIP) with
      | .error _ => paintHosts hil startIP st mx canvas rest
      | .ok (x, y) =>
        if mx = 0 then none
        else
          let metric : ℤ := if st = scanHostUp then h.RTT else (h.OpenPorts.length : ℤ)
          paintHosts hil startIP st mx (canvas.set x y (getColor (levelOf metric mx))) rest

/-- `renderImage` of src/netmap.go lines 113-161.
1. `l, _ := getLength(n)` — the error is discarded (`getLengthVal`).
2. the `l × l` canvas is allocated; with `t` false it is filled with
   `colors[0]` inside the bounds (`draw.Draw`), otherwise left at the zero
   value.
3. `hilbert.New(l)` — its error is the only error return.
4. `startIP := IPv4ToInt(n.IP)` — panics for a nil/non-IPv4 base address.
5. the maximum metric is computed, then the painting loop runs. -/
def renderImage (n : IPNet) (t : Bool) (st : ScanType) (hosts : List Host) : RenderOut :=
  let l := getLengthVal n
  let canvas : Canvas :=
    ⟨l, if t then fun _ => ⟨0, 0, 0, 0⟩
      else fun p => if p.1 < l ∧ p.2 < l then colors 0 else ⟨0, 0, 0, 0⟩⟩
  match hilbertNew l with
  | .error e => .fail (.hilbertFail e)
  | .ok hil =>
    match IPv4ToInt n.ip with
    | none => .panics
    | some startIP =>
      match paintHosts hil startIP st (maxMetric st hosts) canvas hosts with
      | none => .panics
      | some c => .ok c

/-- The pixel of a successful render at a point (zero value otherwise);
used to state pixel-level properties of `renderImage` results. -/
def pixelOf (r : RenderOut) (p : ℕ × ℕ) : RGBA :=
  match r with
  | .ok c => c.pix p
  | _ => ⟨0, 0, 0, 0⟩

/-- The side of a successful render (0 otherwise). -/
def sideOf (r : RenderOut) : ℕ :=
  match r with
  | .ok c => c.side
  | _ => 0

/-! ## Concrete inputs used by the claim instances -/

/-- The network 10.0.0.0/24. -/
def subnet24 : IPNet := ⟨some [10, 0, 0, 0], 24, 32⟩

/-- The network 10.0.0.0/23 (odd host-bit count 9). -/
def subnet23 : IPNet := ⟨some [10, 0, 0, 0], 23, 32⟩

/-- The IPv6 network 2001:db8::/64 (128-bit mask, not an IPv4 network). -/
def subnet64v6 : IPNet :=
  ⟨some [32, 1, 13, 184, 0, 0, 0, 0, 0, 0, 0, 0, 0, 0, 0, 0], 64, 128⟩

/-- Byte form of the IPv6 address 2001:db8::1 (16 bytes, not IPv4-mapped). -/
def ipv6Sample : List ℕ := [32, 1, 13, 184, 0, 0, 0, 0, 0, 0, 0, 0, 0, 0, 0, 1]

/-- Host 10.0.0.1 with RTT 1, inside 10.0.0.0/24 (offset 1). -/
def hostA : Host := ⟨some [10, 0, 0, 1], 1, []⟩

/-- Host 10.1.0.0 with RTT 65535, outside 10.0.0.0/24 (offset 65536 ≥ 256). -/
def hostB : Host := ⟨some [10, 1, 0, 0], 65535, []⟩

/-- Host 10.0.0.1 with RTT 0 — a mappable record whose metric is zero. -/
def hostZero : Host := ⟨some [10, 0, 0, 1], 0, []⟩

/-- Host with a nil IP, RTT 5. -/
def hostNil : Host := ⟨none, 5, []⟩

/-- The canvas `renderImage` builds for a /24 with opaque background: side
16, black inside the bounds. -/
def canvasBlack16 : Canvas :=
  ⟨16, fun p => if p.1 < 16 ∧ p.2 < 16 then colors 0 else ⟨0, 0, 0, 0⟩⟩

/-- The canvas `renderImage` builds for a /24 with transparent background:
side 16, all pixels at the zero value. -/
def canvasClear16 : Canvas := ⟨16, fun _ => ⟨0, 0, 0, 0⟩⟩

/-! ## Claim theorems -/

/-- C1: the claim says `getColor` linearly interpolates each channel between
the centers of the surrounding gradient stops (so that, e.g., level 1 — just
above the coldest center — is painted almost black).  In the code,
`fract = float64(lvl) - float64(currV)/float64(diff)` divides before
subtracting, and `diff` and the channel deltas wrap in unsigned arithmetic;
at level 1 (between the centers of stops 0 and 1) the code returns pure blue
(0,0,255,255) where the claimed interpolation yields black (0,0,0,255).
Every float operation on this path is exact or robust: `fract` lies strictly
inside (0,1), so the blue channel truncates to 255 for the exact rational and
for the rounded double alike.  The first conjunct records that the claim's
[10,20,40] scenario normalizes the value-10 record to level 16383, an
interior level governed by the same broken interpolation arm. -/
theorem getColor_breaks_interpolation :
    levelOf 10 40 = 16383 ∧
    getColor 1 = ⟨0, 0, 255, 255⟩ ∧
    gradientSpecColor 1 = ⟨0, 0, 0, 255⟩ ∧
    getColor 1 ≠ gradientSpecColor 1 :=
  ⟨rfl, rfl, rfl, by decide⟩

/-- C2: the claim says the normalization never divides by zero and a zero
`maxValue` yields level 0 for every record.  In the code the maximum of the
metric is indeed computed (0 for an empty or all-zero record set), but the
per-record `uint16(h.RTT * int(math.MaxUint16) / max)` divides by `max`
unguarded: a mappable record with metric 0 (here host 10.0.0.1 with RTT 0
under the host-up scan) makes `max = 0` and the render panics with an
integer division by zero instead of painting the coldest color.  An empty
record set never reaches the division, so that render completes. -/
theorem render_divzero_at_zero_metric :
    maxMetric scanHostUp [hostZero] = 0 ∧
    renderImage subnet24 false scanHostUp [hostZero] = .panics ∧
    sideOf (renderImage subnet24 false scanHostUp []) = 16 :=
  ⟨rfl, rfl, rfl⟩

/-- C3 (counterexample): the claim says `render` on a non-square or
non-IPv4 subnet fails with the `InvalidSubnet` error propagated from
`computeSide` before any canvas is built.  On the /23 network the code
discards `getLength`'s error (`l, _ := getLength(n)`), builds a 0×0 canvas,
and then fails with the wrapped `hilbert.New(0)` error — a different error
value than either `InvalidSubnet` case. -/
theorem render_slash23_error_not_propagated :
    renderImage subnet23 false scanHostUp [] = .fail (.hilbertFail .notPositive) ∧
    getLength subnet23 = .error .notSquare ∧
    RenderErr.hilbertFail .notPositive ≠ .invalidSubnet .notSquare ∧
    RenderErr.hilbertFail .notPositive ≠ .invalidSubnet .notIPv4 :=
  ⟨rfl, rfl, by decide, by decide⟩

/-- C3 (amended): whenever `getLength` fails (odd host-bit count or non-IPv4
mask), `renderImage` still returns an error for every transparency flag,
scan mode and record list — but it is the wrapped `hilbert.New` not-positive
error produced from the discarded side length 0, after the canvas
allocation, not the propagated `getLength` error. -/
theorem render_getLength_error_gives_hilbert_failure (n : IPNet) (t : Bool) (st : ScanType)
    (hosts : List Host) (e : GetLengthErr) (h : getLength n = .error e) :
    renderImage n t st hosts = .fail (.hilbertFail .notPositive) := by
  have hl : getLengthVal n = 0 := by simp [getLengthVal, h]
  simp [renderImage, hl, hilbertNew]

/-- C3 (witness): the amended theorem applied to the IPv6 /64 network. -/
theorem render_getLength_error_gives_hilbert_failure_witness :
    renderImage subnet64v6 false scanHostUp [] = .fail (.hilbertFail .notPositive) :=
  render_getLength_error_gives_hilbert_failure subnet64v6 false scanHostUp [] .notIPv4 rfl

/-- C6 (counterexample): the claim says a record whose offset is outside the
mappable range is skipped without affecting any other record's pixel.  Host
B (10.1.0.0, offset 65536 ≥ 256) is indeed skipped by the mapper, but it
still participates in the maximum-metric computation: with host A
(10.0.0.1, RTT 1) alone, A's pixel (1,0) is the hottest color (white); with
the out-of-range host B (RTT 65535) also present, A normalizes to level 1
and its pixel changes to blue. -/
theorem out_of_range_record_shifts_other_colors :
    pixelOf (renderImage subnet24 false scanHostUp [hostA, hostB]) (1, 0) = ⟨0, 0, 255, 255⟩ ∧
    pixelOf (renderImage subnet24 false scanHostUp [hostA]) (1, 0) = ⟨255, 255, 255, 255⟩ ∧
    IPv4ToInt hostB.IP = some 167837696 ∧
    Hilbert.Map ⟨16⟩ (wrap32 167837696 167772160) = .error .outOfRange :=
  ⟨rfl, rfl, rfl, rfl⟩

/-- C6 (amended): a record whose wrapped offset falls outside `[0, side²)`
is skipped by the painting loop — with the maximum metric already fixed, the
loop produces the same result with or without the record, so the record
paints no pixel and never aborts the render; however, the record still
enters the maximum-metric computation, so its presence can change the colors
of other records (see the counterexample). -/
theorem paint_skips_out_of_range_record (hil : Hilbert) (startIP : ℕ) (st : ScanType)
    (mx : ℤ) (canvas : Canvas) (b : Host) (rest : List Host) (v : ℕ)
    (h1 : IPv4ToInt b.IP = some v)
    (h2 : hil.N * hil.N ≤ wrap32 v startIP) :
    paintHosts hil startIP st mx canvas (b :: rest) = paintHosts hil startIP st mx canvas rest := by
  have h2' : hil.Map (wrap32 v startIP) = .error .outOfRange := by
    unfold Hilbert.Map
    exact if_pos h2
  simp only [paintHosts, h1, h2']

/-- C6 (witness): the amended theorem applied to host B over the /24 base
address, where the wrapped offset is 65536 ≥ 16·16. -/
theorem paint_skips_out_of_range_record_witness :
    paintHosts ⟨16⟩ 167772160 scanHostUp 65535 canvasBlack16 [hostB] =
      paintHosts ⟨16⟩ 167772160 scanHostUp 65535 canvasBlack16 [] :=
  paint_skips_out_of_range_record ⟨16⟩ 167772160 scanHostUp 65535 canvasBlack16 hostB [] 167837696
    rfl (by decide)

/-- C7: rendering the /24 subnet with no records and an opaque background
succeeds with a 16×16 canvas every in-bounds pixel of which is the coldest
gradient color, opaque black; with a transparent background every pixel is
left at the zero value (alpha 0). -/
theorem render_empty_records_canvas :
    sideOf (renderImage subnet24 false scanHostUp []) = 16 ∧
    (∀ x y, x < 16 → y < 16 →
      pixelOf (renderImage subnet24 false scanHostUp []) (x, y) = ⟨0, 0, 0, 255⟩) ∧
    (∀ x y, pixelOf (renderImage subnet24 true scanHostUp []) (x, y) = ⟨0, 0, 0, 0⟩) := by
  refine ⟨rfl, ?_, fun x y => rfl⟩
  intro x y hx hy
  show (if x < 16 ∧ y < 16 then colors 0 else ⟨0, 0, 0, 0⟩) = ⟨0, 0, 0, 255⟩
  rw [if_pos ⟨hx, hy⟩]
  rfl

/-- C7 (witness): the in-bounds pixel (3,4) of the opaque empty render. -/
theorem render_empty_records_canvas_witness :
    pixelOf (renderImage subnet24 false scanHostUp []) (3, 4) = ⟨0, 0, 0, 255⟩ :=
  render_empty_records_canvas.2.1 3 4 (by decide) (by decide)

/-- C8: `getColor` returns the first stop (opaque black) exactly at level 0
(the only `uint16` level `≤ 0`), the last stop (opaque white) exactly at
every level `≥ 65535`, and a record whose metric equals the positive maximum
normalizes to level 65535 and is painted with the hottest stop exactly. -/
theorem getColor_boundary_policy :
    getColor 0 = colors 0 ∧
    colors 0 = ⟨0, 0, 0, 255⟩ ∧
    (∀ lvl, 65535 ≤ lvl → getColor lvl = colors (lenColors - 1)) ∧
    colors (lenColors - 1) = ⟨255, 255, 255, 255⟩ ∧
    (∀ mx : ℤ, 0 < mx →
      levelOf mx mx = 65535 ∧ getColor (levelOf mx mx) = ⟨255, 255, 255, 255⟩) := by
  refine ⟨rfl, rfl, ?_, rfl, ?_⟩
  · intro lvl h
    unfold getColor
    rw [if_neg (by omega), if_pos h]
  · intro mx h
    have hlev : levelOf mx mx = 65535 := by
      unfold levelOf
      rw [mul_comm, Int.mul_tdiv_cancel _ h.ne']
      rfl
    exact ⟨hlev, by rw [hlev]; rfl⟩

/-- C8 (witness): the boundary theorem applied at level 70000 and at a
record whose metric equals the maximum 7. -/
theorem getColor_boundary_policy_witness :
    getColor 70000 = colors (lenColors - 1) ∧ levelOf 7 7 = 65535 :=
  ⟨getColor_boundary_policy.2.2.1 70000 (by decide),
   (getColor_boundary_policy.2.2.2.2 7 (by decide)).1⟩

/-- C9: `renderImage` is deterministic — it is a pure function of the
subnet, transparency flag, scan mode and host sequence (the host iteration
is over a slice, and the `colors` map is only indexed, never iterated), so
two successful renders of the same inputs agree on the side and on every
pixel. -/
theorem renderImage_deterministic (n : IPNet) (t : Bool) (st : ScanType) (hosts : List Host)
    (c₁ c₂ : Canvas) (p : ℕ × ℕ)
    (h₁ : renderImage n t st hosts = .ok c₁) (h₂ : renderImage n t st hosts = .ok c₂) :
    c₁.side = c₂.side ∧ c₁.pix p = c₂.pix p := by
  rw [h₁] at h₂
  injection h₂ with h
  subst h
  exact ⟨rfl, rfl⟩

/-- C9 (witness): determinism applied to the transparent empty render of the
/24 subnet. -/
theorem renderImage_deterministic_witness :
    canvasClear16.side = canvasClear16.side ∧
      canvasClear16.pix (0, 0) = canvasClear16.pix (0, 0) :=
  renderImage_deterministic subnet24 true scanHostUp [] canvasClear16 canvasClear16 (0, 0) rfl rfl

/-- C4: for every prefix length `p ≤ 32` on a 32-bit mask, `getLength`
succeeds exactly when the host-bit count `32-p` is even, returning the side
`2^((32-p)/2)` whose square is the address-space size `2^(32-p)`; for an odd
host-bit count it fails with the non-square error, and for every non-32-bit
mask width it fails with the not-IPv4 error. -/
theorem getLength_even_square_odd_rejected (ip : GoIP) (p : ℕ) (hp : p ≤ 32) :
    (Even (32 - p) →
      getLength ⟨ip, p, 32⟩ = .ok (2 ^ ((32 - p) / 2)) ∧
      2 ^ ((32 - p) / 2) * 2 ^ ((32 - p) / 2) = 2 ^ (32 - p)) ∧
    (¬Even (32 - p) → getLength ⟨ip, p, 32⟩ = .error .notSquare) ∧
    (∀ bits, bits ≠ 32 → getLength ⟨ip, p, bits⟩ = .error .notIPv4) := by
  refine ⟨?_, ?_, fun bits hb => by simp [getLength, getLengthCore, hb]⟩
  · intro he
    show getLengthCore p 32 = .ok (2 ^ ((32 - p) / 2)) ∧ _
    interval_cases p
    all_goals first
      | exact ⟨by decide, by decide⟩
      | exact absurd he (by decide)
  · intro ho
    show getLengthCore p 32 = .error .notSquare
    interval_cases p
    all_goals first
      | exact absurd (by decide) ho
      | decide

/-- C4 (witness): the geometry theorem applied at /24 (even host bits, side
16), at /23 (odd host bits) and at a 128-bit mask width. -/
theorem getLength_even_square_odd_rejected_witness :
    getLength ⟨some [10, 0, 0, 0], 24, 32⟩ = .ok (2 ^ ((32 - 24) / 2)) ∧
    getLength ⟨some [10, 0, 0, 0], 23, 32⟩ = .error .notSquare ∧
    getLength ⟨some [10, 0, 0, 0], 24, 128⟩ = .error .notIPv4 :=
  ⟨((getLength_even_square_odd_rejected (some [10, 0, 0, 0]) 24 (by norm_num)).1 (by decide)).1,
   (getLength_even_square_odd_rejected (some [10, 0, 0, 0]) 23 (by norm_num)).2.1 (by decide),
   (getLength_even_square_odd_rejected (some [10, 0, 0, 0]) 24 (by norm_num)).2.2 128 (by norm_num)⟩

/-- Evaluation of the quadrant step for quadrant bits 0: swap. -/
theorem hilbertQuad_zero (n x y : ℕ) : hilbertQuad n 0 (x, y) = (y, x) := rfl

/-- Evaluation of the quadrant step for quadrant bits 1: upper-left offset. -/
theorem hilbertQuad_one (n x y : ℕ) : hilbertQuad n 1 (x, y) = (x, y + n) := rfl

/-- Evaluation of the quadrant step for quadrant bits 2: upper-right offset. -/
theorem hilbertQuad_two (n x y : ℕ) : hilbertQuad n 2 (x, y) = (x + n, y + n) := rfl

/-- Evaluation of the quadrant step for quadrant bits 3: flip, swap and
lower-right offset. -/
theorem hilbertQuad_three (n x y : ℕ) : hilbertQuad n 3 (x, y) = (n - 1 - y + n, n - 1 - x) := rfl

/-- Unfolding of one step of the Hilbert iteration. -/
theorem hilbertIter_succ (k t : ℕ) :
    hilbertIter (k + 1) t = hilbertQuad (2 ^ k) (t / 4 ^ k % 4) (hilbertIter k t) := rfl

/-- The order-`k` Hilbert mapping lands inside the `2 ^ k` square (for every
index: only the low `2k` bits are consumed). -/
theorem hilbertIter_lt (k t : ℕ) : (hilbertIter k t).1 < 2 ^ k ∧ (hilbertIter k t).2 < 2 ^ k := by
  induction k generalizing t with
  | zero => exact ⟨Nat.zero_lt_one, Nat.zero_lt_one⟩
  | succ k ih =>
    have hn : 0 < 2 ^ k := Nat.pos_pow_of_pos k (by norm_num)
    have hpow : 2 ^ (k + 1) = 2 ^ k + 2 ^ k := by rw [pow_succ]; omega
    obtain ⟨ih1, ih2⟩ := ih t
    rcases hP : hilbertIter k t with ⟨x, y⟩
    rw [hP] at ih1 ih2
    have hx : x < 2 ^ k := ih1
    have hy : y < 2 ^ k := ih2
    have h4 : t / 4 ^ k % 4 = 0 ∨ t / 4 ^ k % 4 = 1 ∨ t / 4 ^ k % 4 = 2 ∨ t / 4 ^ k % 4 = 3 := by
      omega
    rw [hilbertIter_succ, hP]
    rcases h4 with h | h | h | h <;> rw [h] <;>
      simp only [hilbertQuad_zero, hilbertQuad_one, hilbertQuad_two, hilbertQuad_three] <;>
      omega

/-- The order-`k` Hilbert mapping only depends on the low `2k` bits of the
index. -/
theorem hilbertIter_mod (k t : ℕ) : hilbertIter k (t % 4 ^ k) = hilbertIter k t := by
  induction k generalizing t with
  | zero => rfl
  | succ k ih =>
    rw [hilbertIter_succ, hilbertIter_succ]
    have h1 : t % 4 ^ (k + 1) / 4 ^ k % 4 = t / 4 ^ k % 4 := by
      rw [pow_succ, Nat.mod_mul_right_div_self, Nat.mod_mod_of_dvd _ dvd_rfl]
    have h2 : hilbertIter k (t % 4 ^ (k + 1)) = hilbertIter k t := by
      rw [← ih (t % 4 ^ (k + 1)), ← ih t,
        Nat.mod_mod_of_dvd _ (pow_dvd_pow 4 (Nat.le_succ k))]
    rw [h1, h2]

/-- Quadrant decomposition of the Hilbert mapping: for an index written as
`q * 4 ^ k + r`, the order-`k+1` mapping is the quadrant step applied to the
order-`k` image of `r`. -/
theorem hilbertIter_decomp (k q r : ℕ) (hq : q < 4) (hr : r < 4 ^ k) :
    hilbertIter (k + 1) (q * 4 ^ k + r) = hilbertQuad (2 ^ k) q (hilbertIter k r) := by
  have h4 : 0 < 4 ^ k := Nat.pos_pow_of_pos k (by norm_num)
  have hdiv : (q * 4 ^ k + r) / 4 ^ k = q := by
    rw [add_comm, Nat.add_mul_div_right _ _ h4, Nat.div_eq_of_lt hr, Nat.zero_add]
  have hmod : (q * 4 ^ k + r) % 4 ^ k = r := by
    rw [add_comm, Nat.add_mul_mod_self_right, Nat.mod_eq_of_lt hr]
  rw [hilbertIter_succ, hdiv, Nat.mod_eq_of_lt hq, ← hilbertIter_mod k (q * 4 ^ k + r), hmod]

/-- Injectivity of the order-`k` Hilbert mapping on `[0, 4 ^ k)`: the four
quadrant steps land in four disjoint sub-squares (distinguished by which
coordinates exceed `2 ^ k`) and are each injective on the sub-square. -/
theorem hilbertIter_inj (k : ℕ) : ∀ t₁ t₂, t₁ < 4 ^ k → t₂ < 4 ^ k →
    hilbertIter k t₁ = hilbertIter k t₂ → t₁ = t₂ := by
  induction k with
  | zero =>
    intro t₁ t₂ h1 h2 _
    have h : (4 : ℕ) ^ 0 = 1 := pow_zero 4
    omega
  | succ k ih =>
    intro t₁ t₂ h1 h2 heq
    have hn : 0 < 2 ^ k := Nat.pos_pow_of_pos k (by norm_num)
    have h4 : 0 < 4 ^ k := Nat.pos_pow_of_pos k (by norm_num)
    have h4s : (4 : ℕ) ^ (k + 1) = 4 * 4 ^ k := by ring
    obtain ⟨q₁, r₁, hq1, hr1, rfl⟩ : ∃ q r, q < 4 ∧ r < 4 ^ k ∧ t₁ = q * 4 ^ k + r := by
      refine ⟨t₁ / 4 ^ k, t₁ % 4 ^ k, ?_, Nat.mod_lt _ h4, ?_⟩
      · rw [Nat.div_lt_iff_lt_mul h4]; omega
      · rw [mul_comm]; exact (Nat.div_add_mod t₁ (4 ^ k)).symm
    obtain ⟨q₂, r₂, hq2, hr2, rfl⟩ : ∃ q r, q < 4 ∧ r < 4 ^ k ∧ t₂ = q * 4 ^ k + r := by
      refine ⟨t₂ / 4 ^ k, t₂ % 4 ^ k, ?_, Nat.mod_lt _ h4, ?_⟩
      · rw [Nat.div_lt_iff_lt_mul h4]; omega
      · rw [mul_comm]; exact (Nat.div_add_mod t₂ (4 ^ k)).symm
    rw [hilbertIter_decomp k q₁ r₁ hq1 hr1, hilbertIter_decomp k q₂ r₂ hq2 hr2] at heq
    have hb₁ := hilbertIter_lt k r₁
    have hb₂ := hilbertIter_lt k r₂
    rcases hP₁ : hilbertIter k r₁ with ⟨x₁, y₁⟩
    rcases hP₂ : hilbertIter k r₂ with ⟨x₂, y₂⟩
    rw [hP₁] at heq hb₁
    rw [hP₂] at heq hb₂
    have hx₁ : x₁ < 2 ^ k := hb₁.1
    have hy₁ : y₁ < 2 ^ k := hb₁.2
    have hx₂ : x₂ < 2 ^ k := hb₂.1
    have hy₂ : y₂ < 2 ^ k := hb₂.2
    interval_cases q₁ <;> interval_cases q₂ <;>
      (simp only [hilbertQuad_zero, hilbertQuad_one, hilbertQuad_two, hilbertQuad_three,
          Prod.mk.injEq] at heq
       obtain ⟨hA, hB⟩ := heq
       have hxy : x₁ = x₂ ∧ y₁ = y₂ := by omega
       have hr : r₁ = r₂ := ih r₁ r₂ hr1 hr2 (by rw [hP₁, hP₂, hxy.1, hxy.2])
       omega)

/-- Surjectivity of the order-`k` Hilbert mapping onto the `2 ^ k` square:
a preimage is constructed quadrant by quadrant. -/
theorem hilbertIter_surj (k : ℕ) : ∀ x y, x < 2 ^ k → y < 2 ^ k →
    ∃ t, t < 4 ^ k ∧ hilbertIter k t = (x, y) := by
  induction k with
  | zero =>
    intro x y hx hy
    have hx0 : x = 0 := by omega
    have hy0 : y = 0 := by omega
    subst hx0; subst hy0
    exact ⟨0, by norm_num, rfl⟩
  | succ k ih =>
    intro x y hx hy
    have hn : 0 < 2 ^ k := Nat.pos_pow_of_pos k (by norm_num)
    have h4 : 0 < 4 ^ k := Nat.pos_pow_of_pos k (by norm_num)
    have hpow : 2 ^ (k + 1) = 2 ^ k + 2 ^ k := by rw [pow_succ]; omega
    have h4s : (4 : ℕ) ^ (k + 1) = 4 * 4 ^ k := by ring
    by_cases hx' : x < 2 ^ k
    · by_cases hy' : y < 2 ^ k
      · obtain ⟨r, hr, hmap⟩ := ih y x hy' hx'
        refine ⟨0 * 4 ^ k + r, by omega, ?_⟩
        rw [hilbertIter_decomp k 0 r (by norm_num) hr, hmap, hilbertQuad_zero]
      · obtain ⟨r, hr, hmap⟩ := ih x (y - 2 ^ k) hx' (by omega)
        refine ⟨1 * 4 ^ k + r, by omega, ?_⟩
        rw [hilbertIter_decomp k 1 r (by norm_num) hr, hmap, hilbertQuad_one]
        have e : y - 2 ^ k + 2 ^ k = y := by omega
        rw [e]
    · by_cases hy' : y < 2 ^ k
      · obtain ⟨r, hr, hmap⟩ := ih (2 ^ k - 1 - y) (2 ^ k + 2 ^ k - 1 - x) (by omega) (by omega)
        refine ⟨3 * 4 ^ k + r, by omega, ?_⟩
        rw [hilbertIter_decomp k 3 r (by norm_num) hr, hmap, hilbertQuad_three]
        have e1 : 2 ^ k - 1 - (2 ^ k + 2 ^ k - 1 - x) + 2 ^ k = x := by omega
        have e2 : 2 ^ k - 1 - (2 ^ k - 1 - y) = y := by omega
        rw [e1, e2]
      · obtain ⟨r, hr, hmap⟩ := ih (x - 2 ^ k) (y - 2 ^ k) (by omega) (by omega)
        refine ⟨2 * 4 ^ k + r, by omega, ?_⟩
        rw [hilbertIter_decomp k 2 r (by norm_num) hr, hmap, hilbertQuad_two]
        have e1 : x - 2 ^ k + 2 ^ k = x := by omega
        have e2 : y - 2 ^ k + 2 ^ k = y := by omega
        rw [e1, e2]

/-- A power of two has no bit in common with its predecessor, so
`hilbertNew` accepts it. -/
theorem two_pow_land_pred (k : ℕ) : 2 ^ k &&& (2 ^ k - 1) = 0 := by
  apply Nat.eq_of_testBit_eq
  intro i
  rw [Nat.testBit_land, Nat.testBit_two_pow, Nat.testBit_two_pow_sub_one, Nat.zero_testBit]
  by_cases h : k = i
  · subst h; simp
  · simp [h]

/-- The loop-count function evaluates to the exponent on powers of two. -/
theorem log2Fuel_two_pow (k : ℕ) : ∀ fuel, 2 ^ k ≤ fuel → log2Fuel fuel (2 ^ k) = k := by
  induction k with
  | zero =>
    intro fuel h
    cases fuel with
    | zero => exact absurd h (by norm_num)
    | succ f => norm_num [log2Fuel]
  | succ k ih =>
    intro fuel h
    have hn : 0 < 2 ^ k := Nat.pos_pow_of_pos k (by norm_num)
    have hpow : 2 ^ (k + 1) = 2 * 2 ^ k := by rw [pow_succ]; ring
    cases fuel with
    | zero => exact absurd h (by omega)
    | succ f =>
      show (if 2 ≤ 2 ^ (k + 1) then log2Fuel f (2 ^ (k + 1) / 2) + 1 else 0) = k + 1
      rw [if_pos (by omega), hpow, Nat.mul_div_cancel_left _ (by norm_num : 0 < 2),
        ih f (by omega)]

/-- C5: for every side `2 ^ k`, the curve mapper built from the side
(`hilbertNew` succeeds) is a bijection from offsets `[0, side²)` to the
coordinate square `[0, side) × [0, side)`: every offset maps to exactly one
in-square coordinate pair, distinct offsets map to distinct pairs, and every
pair is produced by exactly one offset. -/
theorem curve_locate_bijective (k : ℕ) :
    hilbertNew (2 ^ k) = .ok ⟨2 ^ k⟩ ∧
    (∀ t, t < 2 ^ k * 2 ^ k →
      ∃ x y, Hilbert.Map ⟨2 ^ k⟩ t = .ok (x, y) ∧ x < 2 ^ k ∧ y < 2 ^ k) ∧
    (∀ t₁ t₂, t₁ < 2 ^ k * 2 ^ k → t₂ < 2 ^ k * 2 ^ k →
      Hilbert.Map ⟨2 ^ k⟩ t₁ = Hilbert.Map ⟨2 ^ k⟩ t₂ → t₁ = t₂) ∧
    (∀ x y, x < 2 ^ k → y < 2 ^ k →
      ∃! t, t < 2 ^ k * 2 ^ k ∧ Hilbert.Map ⟨2 ^ k⟩ t = .ok (x, y)) := by
  have hn : 0 < 2 ^ k := Nat.pos_pow_of_pos k (by norm_num)
  have hsq : (2 : ℕ) ^ k * 2 ^ k = 4 ^ k := by rw [← mul_pow]; norm_num
  have hlog : goLog2 (2 ^ k) = k := log2Fuel_two_pow k (2 ^ k) (le_refl _)
  have hmap : ∀ t, t < 2 ^ k * 2 ^ k → Hilbert.Map ⟨2 ^ k⟩ t = .ok (hilbertIter k t) := by
    intro t ht
    show (if 2 ^ k * 2 ^ k ≤ t then Except.error MapErr.outOfRange
      else .ok (hilbertIter (goLog2 (2 ^ k)) t)) = .ok (hilbertIter k t)
    rw [if_neg (by omega), hlog]
  refine ⟨?_, ?_, ?_, ?_⟩
  · unfold hilbertNew
    rw [if_neg (by omega), if_neg (not_ne_iff.mpr (two_pow_land_pred k))]
  · intro t ht
    exact ⟨(hilbertIter k t).1, (hilbertIter k t).2, hmap t ht,
      (hilbertIter_lt k t).1, (hilbertIter_lt k t).2⟩
  · intro t₁ t₂ h1 h2 heq
    rw [hmap t₁ h1, hmap t₂ h2] at heq
    injection heq with h
    exact hilbertIter_inj k t₁ t₂ (by omega) (by omega) h
  · intro x y hx hy
    obtain ⟨t, ht, hiter⟩ := hilbertIter_surj k x y hx hy
    refine ⟨t, ⟨by omega, by rw [hmap t (by omega), hiter]⟩, ?_⟩
    intro s hs
    obtain ⟨hs1, hs2⟩ := hs
    have hsit : hilbertIter k s = (x, y) := by
      rw [hmap s hs1] at hs2
      injection hs2
    exact hilbertIter_inj k s t (by omega) (by omega) (by rw [hsit, hiter])

/-- C5 (witness): the bijection theorem applied at side 4, offset 5. -/
theorem curve_locate_bijective_witness :
    ∃ x y, Hilbert.Map ⟨2 ^ 2⟩ 5 = .ok (x, y) ∧ x < 2 ^ 2 ∧ y < 2 ^ 2 :=
  (curve_locate_bijective 2).2.1 5 (by norm_num)

/-- C10: `IPv4ToInt` indexes the result of `To4()` with no nil check, so it
is undefined (a nil-slice-index runtime panic, modelled `none`) for a nil IP
and for a 16-byte non-IPv4-mapped address; the parser filter
`h.IP.String() != ""` never excludes such records because a nil IP
stringifies to `"<nil>"`; consequently a record with a nil IP reaches
`renderImage` and the render panics. -/
theorem nil_ip_passes_filter_and_render_panics :
    IPv4ToInt none = none ∧
    To4 (some ipv6Sample) = none ∧
    IPv4ToInt (some ipv6Sample) = none ∧
    ipString none = "<nil>" ∧
    keepHost hostNil = true ∧
    renderImage subnet24 false scanHostUp [hostNil] = .panics :=
  ⟨rfl, by decide, by decide, rfl, by decide, rfl⟩

end Netmap
